import Mathlib

/-!
Shallow embedding of the real-time presence and whisper-relay engine of
src/server.ts (the socket engine handlers: join_circle, voice_activity,
send_whisper, disconnect), with proofs of the specified properties.

The registry `activeRooms` is a JavaScript Map from room identifier to a Map
from socket identifier to a User record.  JavaScript Map semantics are
modelled by association lists that preserve insertion order: `set` overwrites
the value in place when the key is present and appends otherwise, `delete`
removes the entry, and iteration follows insertion order.
-/

namespace Sanctuary

/-- Member record stored in the room registry (interface User in server.ts). -/
structure User where
  socketId : String
  userId : String
  name : String
  isSpeaking : Bool
  deriving DecidableEq

/-- A whisper message (interface Message in server.ts). -/
structure Message where
  senderId : String
  receiverId : String
  cipherText : String
  timestamp : Nat
  type : String
  sharedCircleId : Option String
  isRead : Bool
  deriving DecidableEq

/-- Raw client payload of a send_whisper command (msgData); fields the client
did not supply are `none`, mirroring `undefined` in JavaScript. -/
structure MsgData where
  senderId : Option String
  receiverId : Option String
  cipherText : Option String
  timestamp : Option Nat
  type : Option String
  sharedCircleId : Option String
  deriving DecidableEq

/-- JavaScript `x || d` on a possibly-absent string: `undefined` and the empty
string are the falsy string values. -/
def jsOr (x : Option String) (d : String) : String :=
  match x with
  | none => d
  | some s => if s = "" then d else s

/-- JavaScript template-literal interpolation of a possibly-absent string:
`undefined` prints as the text "undefined". -/
def jsStr (x : Option String) : String :=
  match x with
  | none => "undefined"
  | some s => s

section JsMap

variable {α : Type}

/-- JavaScript `Map.has`. -/
def jsHas (k : String) : List (String × α) → Bool
  | [] => false
  | p :: m => decide (p.1 = k) || jsHas k m

/-- JavaScript `Map.get` (`none` models `undefined`). -/
def jsGet (k : String) : List (String × α) → Option α
  | [] => none
  | p :: m => if p.1 = k then some p.2 else jsGet k m

/-- JavaScript `Map.set`: overwrite in place when the key is present
(preserving insertion order), append otherwise. -/
def jsSet (k : String) (v : α) (m : List (String × α)) : List (String × α) :=
  if jsHas k m then m.map (fun p => if p.1 = k then (k, v) else p)
  else m ++ [(k, v)]

/-- JavaScript `Map.delete`. -/
def jsDel (k : String) (m : List (String × α)) : List (String × α) :=
  m.filter (fun p => !(decide (p.1 = k)))

/-- JavaScript `Array.from(m.values())`: the values in insertion order. -/
def jsValues (m : List (String × α)) : List α := m.map Prod.snd

theorem jsHas_nil (k : String) : jsHas k ([] : List (String × α)) = false := rfl

theorem jsHas_cons (k : String) (p : String × α) (m : List (String × α)) :
    jsHas k (p :: m) = (decide (p.1 = k) || jsHas k m) := rfl

theorem jsGet_nil (k : String) : jsGet k ([] : List (String × α)) = none := rfl

theorem jsGet_cons (k : String) (p : String × α) (m : List (String × α)) :
    jsGet k (p :: m) = if p.1 = k then some p.2 else jsGet k m := rfl

theorem jsHas_eq_isSome (k : String) (m : List (String × α)) :
    jsHas k m = (jsGet k m).isSome := by
  induction m with
  | nil => rfl
  | cons p m ih =>
    by_cases h : p.1 = k <;> simp [jsHas_cons, jsGet_cons, h, ih]

theorem jsHas_eq_mem_keys (k : String) (m : List (String × α)) :
    jsHas k m = true ↔ k ∈ m.map Prod.fst := by
  induction m with
  | nil => simp [jsHas_nil]
  | cons p m ih =>
    by_cases h : p.1 = k
    · subst h; simp [jsHas_cons]
    · have h2 : ¬ k = p.1 := fun he => h he.symm
      simp [jsHas_cons, h, h2, ih]

theorem jsGet_eq_none_of_not_mem_keys {k : String} {m : List (String × α)}
    (h : k ∉ m.map Prod.fst) : jsGet k m = none := by
  have hh : ¬ jsHas k m = true := by
    rw [jsHas_eq_mem_keys]; exact h
  rw [jsHas_eq_isSome] at hh
  cases hg : jsGet k m with
  | none => rfl
  | some v => rw [hg] at hh; simp at hh

theorem mem_of_jsGet {k : String} {v : α} {m : List (String × α)}
    (h : jsGet k m = some v) : (k, v) ∈ m := by
  induction m with
  | nil => simp [jsGet] at h
  | cons p m ih =>
    obtain ⟨a, b⟩ := p
    by_cases hp : a = k
    · simp [jsGet_cons, hp] at h
      subst hp; subst h
      exact List.mem_cons_self _ _
    · simp [jsGet_cons, hp] at h
      exact List.mem_cons_of_mem _ (ih h)

theorem jsGet_append (r : String) (m l : List (String × α)) :
    jsGet r (m ++ l) =
      match jsGet r m with
      | some v => some v
      | none => jsGet r l := by
  induction m with
  | nil => rfl
  | cons p m ih =>
    by_cases hp : p.1 = r <;> simp [jsGet_cons, hp, ih]

theorem jsGet_map_set_self (k : String) (v : α) (m : List (String × α)) :
    jsGet k (m.map (fun p => if p.1 = k then (k, v) else p)) =
      (jsGet k m).map (fun _ => v) := by
  induction m with
  | nil => rfl
  | cons p m ih =>
    by_cases hp : p.1 = k <;> simp [jsGet_cons, hp, ih]

theorem jsGet_map_set_ne {r k : String} (h : r ≠ k) (v : α)
    (m : List (String × α)) :
    jsGet r (m.map (fun p => if p.1 = k then (k, v) else p)) = jsGet r m := by
  induction m with
  | nil => rfl
  | cons p m ih =>
    by_cases hp : p.1 = k
    · have hkr : ¬ k = r := fun he => h he.symm
      have hpr : ¬ p.1 = r := by rw [hp]; exact hkr
      simp [jsGet_cons, hp, hkr, hpr, ih]
    · have hrk : ¬ r = k := h
      by_cases hpr : p.1 = r <;> simp [jsGet_cons, hp, hpr, hrk, ih]

theorem jsGet_set_self (k : String) (v : α) (m : List (String × α)) :
    jsGet k (jsSet k v m) = some v := by
  unfold jsSet
  by_cases h : jsHas k m = true
  · rw [if_pos h, jsGet_map_set_self]
    rw [jsHas_eq_isSome] at h
    cases hg : jsGet k m with
    | none => rw [hg] at h; simp at h
    | some w => simp [hg]
  · rw [if_neg h, jsGet_append]
    rw [jsHas_eq_isSome] at h
    cases hg : jsGet k m with
    | none => simp [jsGet_cons]
    | some w => rw [hg] at h; simp at h

theorem jsGet_set_ne {r k : String} (h : r ≠ k) (v : α) (m : List (String × α)) :
    jsGet r (jsSet k v m) = jsGet r m := by
  unfold jsSet
  by_cases hk : jsHas k m = true
  · rw [if_pos hk, jsGet_map_set_ne h]
  · rw [if_neg hk, jsGet_append]
    have hkr : ¬ k = r := fun he => h he.symm
    cases hg : jsGet r m with
    | none => simp [jsGet_cons, jsGet_nil, hkr]
    | some w => simp

theorem jsHas_set (r k : String) (v : α) (m : List (String × α)) :
    jsHas r (jsSet k v m) = (decide (r = k) || jsHas r m) := by
  rw [jsHas_eq_isSome, jsHas_eq_isSome]
  by_cases h : r = k
  · subst h; simp [jsGet_set_self]
  · simp [jsGet_set_ne h, h]

theorem jsGet_del_self (k : String) (m : List (String × α)) :
    jsGet k (jsDel k m) = none := by
  induction m with
  | nil => rfl
  | cons p m ih =>
    simp only [jsDel] at ih ⊢
    rw [List.filter_cons]
    by_cases hp : p.1 = k
    · simp [hp, ih]
    · simp [hp, jsGet_cons, ih]

theorem jsGet_del_ne {r k : String} (h : r ≠ k) (m : List (String × α)) :
    jsGet r (jsDel k m) = jsGet r m := by
  induction m with
  | nil => rfl
  | cons p m ih =>
    simp only [jsDel] at ih ⊢
    rw [List.filter_cons]
    by_cases hp : p.1 = k
    · have hkr : ¬ k = r := fun he => h he.symm
      simp [hp, jsGet_cons, hkr, ih]
    · by_cases hpr : p.1 = r <;> simp [hp, jsGet_cons, hpr, h, ih]

theorem jsHas_del (r k : String) (m : List (String × α)) :
    jsHas r (jsDel k m) = if r = k then false else jsHas r m := by
  by_cases h : r = k
  · subst h
    simp [jsHas_eq_isSome, jsGet_del_self]
  · simp [h, jsHas_eq_isSome, jsGet_del_ne h]

theorem keys_set (k : String) (v : α) (m : List (String × α)) :
    (jsSet k v m).map Prod.fst =
      if jsHas k m then m.map Prod.fst else m.map Prod.fst ++ [k] := by
  unfold jsSet
  by_cases h : jsHas k m = true
  · simp only [h, if_true, List.map_map]
    apply List.map_congr_left
    intro p _
    by_cases hp : p.1 = k <;> simp [hp]
  · simp [h]

theorem keys_del_sublist (k : String) (m : List (String × α)) :
    ((jsDel k m).map Prod.fst).Sublist (m.map Prod.fst) :=
  (List.filter_sublist m).map Prod.fst

theorem mem_jsDel {p : String × α} {k : String} {m : List (String × α)}
    (h : p ∈ jsDel k m) : p ∈ m :=
  List.mem_of_mem_filter h

theorem mem_jsSet {p : String × α} {k : String} {v : α} {m : List (String × α)}
    (h : p ∈ jsSet k v m) : p = (k, v) ∨ (p ∈ m ∧ p.1 ≠ k) := by
  unfold jsSet at h
  by_cases hk : jsHas k m = true
  · rw [if_pos hk, List.mem_map] at h
    obtain ⟨q, hq, he⟩ := h
    by_cases hqk : q.1 = k
    · simp [hqk] at he
      left; exact he.symm
    · simp [hqk] at he
      right; subst he; exact ⟨hq, hqk⟩
  · rw [if_neg hk, List.mem_append, List.mem_singleton] at h
    rcases h with h | h
    · right
      refine ⟨h, ?_⟩
      intro he
      have hmem : jsHas k m = true := by
        rw [jsHas_eq_mem_keys]
        exact List.mem_map.mpr ⟨p, h, he⟩
      exact hk hmem
    · left; exact h

theorem jsSet_ne_nil (k : String) (v : α) (m : List (String × α)) :
    jsSet k v m ≠ [] := by
  unfold jsSet
  by_cases h : jsHas k m = true
  · simp only [h, if_true]
    intro he
    rw [List.map_eq_nil_iff] at he
    subst he
    simp [jsHas_nil] at h
  · simp [h]

end JsMap

/-- Audience of a socket.io emission: `io.to(roomId).emit` reaches the sockets
subscribed to that socket.io room, `io.emit` reaches every connected socket. -/
inductive EmitTarget where
  | room (roomId : String)
  | all
  deriving DecidableEq

/-- Server events emitted by the socket engine.  The `invalidMessage`
constructor is the InvalidMessage condition the specification describes; the
theorems show whether the engine ever produces it. -/
inductive Event where
  | presenceUpdate (roomId : String) (members : List User)
  | userSpeaking (roomId : String) (socketId : String) (isSpeaking : Bool)
  | whisperInbox (channel : String) (msg : Message)
  | invalidMessage (toSocketId : String)
  deriving DecidableEq

/-- One `emit` call: its audience and its event. -/
structure Emission where
  target : EmitTarget
  event : Event
  deriving DecidableEq

/-- Test for the InvalidMessage condition. -/
def Event.isInvalid : Event → Bool
  | Event.invalidMessage _ => true
  | _ => false

/-- A room of the registry: a Map from socket id to the member record. -/
abbrev RoomMembers := List (String × User)

/-- The `activeRooms` registry: a Map from room id to its member Map. -/
abbrev Registry := List (String × RoomMembers)

/-- Handler of the `join_circle` event (server.ts lines 186 to 192):
create the room Map lazily, overwrite the member record keyed by the socket
id, and broadcast the full member snapshot to the room. -/
def joinCircle (sid roomId uid nm : String) (st : Registry) :
    Registry × List Emission :=
  let st1 := if jsHas roomId st then st else jsSet roomId ([] : RoomMembers) st
  let room := (jsGet roomId st1).getD []
  let room1 := jsSet sid ⟨sid, uid, nm, false⟩ room
  let st2 := jsSet roomId room1 st1
  (st2, [⟨EmitTarget.room roomId, Event.presenceUpdate roomId (jsValues room1)⟩])

/-- In-place mutation `room.get(socket.id)!.isSpeaking = isSpeaking`. -/
def setSpeaking (sid : String) (b : Bool) (room : RoomMembers) : RoomMembers :=
  room.map (fun p => if p.1 = sid then (p.1, { p.2 with isSpeaking := b }) else p)

/-- Handler of the `voice_activity` event (server.ts lines 194 to 200):
only when the socket is a member of the room, mutate its speaking flag and
broadcast the delta event; otherwise do nothing. -/
def voiceActivity (sid roomId : String) (isSpeaking : Bool) (st : Registry) :
    Registry × List Emission :=
  match jsGet roomId st with
  | none => (st, [])
  | some room =>
    if jsHas sid room then
      (jsSet roomId (setSpeaking sid isSpeaking room) st,
       [⟨EmitTarget.room roomId, Event.userSpeaking roomId sid isSpeaking⟩])
    else (st, [])

/-- Handler of the `disconnect` event (server.ts lines 218 to 226): for every
room containing the socket, delete the member, broadcast the new snapshot,
and delete the room record when its member Map became empty. -/
def disconnect (sid : String) : Registry → Registry × List Emission
  | [] => ([], [])
  | (roomId, members) :: rest =>
    let tail := disconnect sid rest
    if jsHas sid members then
      let members1 := jsDel sid members
      let e : Emission :=
        ⟨EmitTarget.room roomId, Event.presenceUpdate roomId (jsValues members1)⟩
      if members1.isEmpty then (tail.1, e :: tail.2)
      else ((roomId, members1) :: tail.1, e :: tail.2)
    else ((roomId, members) :: tail.1, tail.2)

/-- Message constructed by the `send_whisper` handler (server.ts lines 203 to
211): absent strings default via `||`, the timestamp is `Date.now()` at
acceptance, the type defaults to "text" and the read flag starts false. -/
def buildMessage (now : Nat) (md : MsgData) : Message :=
  { senderId := jsOr md.senderId ""
    receiverId := jsOr md.receiverId ""
    cipherText := jsOr md.cipherText ""
    timestamp := now
    type := jsOr md.type "text"
    sharedCircleId := md.sharedCircleId
    isRead := false }

/-- Handler of the `send_whisper` event (server.ts lines 202 to 216).
`dbConnected` is the isDbConnected gate and `insertOk` the outcome of the
insertOne attempt (its failure is swallowed by the empty catch).  The result
carries the constructed message, the emissions, and whether the message
reached the store. -/
def sendWhisper (now : Nat) (dbConnected insertOk : Bool) (md : MsgData) :
    Message × List Emission × Bool :=
  let m := buildMessage now md
  let persisted := if dbConnected then insertOk else false
  (m,
   [⟨EmitTarget.all,
     Event.whisperInbox ("whisper_inbox_" ++ jsStr md.receiverId) m⟩],
   persisted)

/-- A live transport connection together with the user identity it claimed. -/
structure Conn where
  socketId : String
  userId : String
  deriving DecidableEq

/-- The connections that receive an emission: `io.emit` reaches every
connected socket, `io.to(roomId)` the sockets subscribed to that room
(`joinedTo` is the socket.io subscription relation built by socket.join). -/
def observers (conns : List Conn) (joinedTo : Conn → String → Bool)
    (em : Emission) : List Conn :=
  match em.target with
  | EmitTarget.all => conns
  | EmitTarget.room r => conns.filter (fun c => joinedTo c r)

/-- A client command handled by the socket engine. -/
inductive Op where
  | join (sid roomId uid nm : String)
  | activity (sid roomId : String) (isSpeaking : Bool)
  | disc (sid : String)
  deriving DecidableEq

/-- Dispatch one command to its handler. -/
def step (st : Registry) (op : Op) : Registry × List Emission :=
  match op with
  | Op.join sid roomId uid nm => joinCircle sid roomId uid nm st
  | Op.activity sid roomId b => voiceActivity sid roomId b st
  | Op.disc sid => disconnect sid st

/-- Run a command sequence from a registry state, collecting all emissions in
order. -/
def runFrom (st : Registry) : List Op → Registry × List Emission
  | [] => (st, [])
  | op :: rest =>
    let r1 := step st op
    let r2 := runFrom r1.1 rest
    (r2.1, r1.2 ++ r2.2)

/-- Run a command sequence from the empty registry. -/
def run (ops : List Op) : Registry × List Emission := runFrom [] ops

/-- The member list of the latest presence snapshot emitted for a room. -/
def presenceOf (roomId : String) (e : Emission) : Option (List User) :=
  match e.event with
  | Event.presenceUpdate r ms => if r = roomId then some ms else none
  | _ => none

/-- Latest presence snapshot for a room within an emission trace. -/
def lastPresence (roomId : String) (es : List Emission) : Option (List User) :=
  (es.filterMap (presenceOf roomId)).getLast?

/-- Whether a socket id occurs in an emitted member list. -/
def hasSid (sid : String) (ms : List User) : Bool :=
  ms.any (fun u => u.socketId = sid)

/-- Registry-level membership of a socket in a room. -/
def memberOf (sid roomId : String) (st : Registry) : Bool :=
  jsHas sid ((jsGet roomId st).getD [])

/-- Specification-side member set of a room: the connections that have joined
the room and not since disconnected, read off the command sequence itself. -/
def joinedNotGone (roomId sid : String) (ops : List Op) : Bool :=
  ops.foldl
    (fun b op =>
      match op with
      | Op.join s r _ _ => if s = sid ∧ r = roomId then true else b
      | Op.disc s => if s = sid then false else b
      | Op.activity _ _ _ => b)
    false

/-- Well-formed room Map: keys are distinct and each member record stores its
own key as its socket id. -/
def RoomWF (room : RoomMembers) : Prop :=
  (room.map Prod.fst).Nodup ∧ ∀ p ∈ room, p.2.socketId = p.1

/-- Well-formed registry: distinct room keys, well-formed nonempty rooms. -/
def RegWF (st : Registry) : Prop :=
  (st.map Prod.fst).Nodup ∧ ∀ p ∈ st, RoomWF p.2 ∧ p.2 ≠ []

theorem roomFix_get (roomId : String) (st : Registry) :
    (jsGet roomId
        (if jsHas roomId st then st else jsSet roomId ([] : RoomMembers) st)).getD [] =
      (jsGet roomId st).getD [] := by
  by_cases h : jsHas roomId st = true
  · rw [if_pos h]
  · rw [if_neg h, jsGet_set_self]
    rw [jsHas_eq_isSome] at h
    cases hg : jsGet roomId st with
    | none => simp
    | some w => rw [hg] at h; simp at h

theorem roomFix_get_ne {r roomId : String} (h : r ≠ roomId) (st : Registry) :
    jsGet r (if jsHas roomId st then st else jsSet roomId ([] : RoomMembers) st) =
      jsGet r st := by
  by_cases hh : jsHas roomId st = true
  · rw [if_pos hh]
  · rw [if_neg hh, jsGet_set_ne h]

theorem roomFix_keys (roomId : String) (st : Registry) :
    ((if jsHas roomId st then st
      else jsSet roomId ([] : RoomMembers) st).map Prod.fst) =
      if jsHas roomId st then st.map Prod.fst else st.map Prod.fst ++ [roomId] := by
  by_cases h : jsHas roomId st = true
  · rw [if_pos h, if_pos h]
  · rw [if_neg h, if_neg h, keys_set, if_neg h]

theorem jsGet_joinCircle_self (sid roomId uid nm : String) (st : Registry) :
    jsGet roomId (joinCircle sid roomId uid nm st).1 =
      some (jsSet sid ⟨sid, uid, nm, false⟩ ((jsGet roomId st).getD [])) := by
  simp only [joinCircle]
  rw [roomFix_get, jsGet_set_self]

theorem jsGet_joinCircle_ne {r roomId : String} (h : r ≠ roomId)
    (sid uid nm : String) (st : Registry) :
    jsGet r (joinCircle sid roomId uid nm st).1 = jsGet r st := by
  simp only [joinCircle]
  rw [jsGet_set_ne h, roomFix_get_ne h]

theorem joinCircle_snd (sid roomId uid nm : String) (st : Registry) :
    (joinCircle sid roomId uid nm st).2 =
      [⟨EmitTarget.room roomId,
        Event.presenceUpdate roomId
          (jsValues (jsSet sid ⟨sid, uid, nm, false⟩
            ((jsGet roomId st).getD [])))⟩] := by
  simp only [joinCircle]
  rw [roomFix_get]

theorem memberOf_joinCircle (s r sid roomId uid nm : String) (st : Registry) :
    memberOf s r (joinCircle sid roomId uid nm st).1 =
      if r = roomId then (decide (s = sid) || memberOf s roomId st)
      else memberOf s r st := by
  by_cases hr : r = roomId
  · subst hr
    rw [if_pos rfl]
    unfold memberOf
    rw [jsGet_joinCircle_self]
    simp only [Option.getD_some]
    rw [jsHas_set]
  · rw [if_neg hr]
    unfold memberOf
    rw [jsGet_joinCircle_ne hr]

theorem setSpeaking_keys (sid : String) (b : Bool) (room : RoomMembers) :
    (setSpeaking sid b room).map Prod.fst = room.map Prod.fst := by
  unfold setSpeaking
  rw [List.map_map]
  apply List.map_congr_left
  intro p _
  by_cases hp : p.1 = sid <;> simp [hp]

theorem jsGet_setSpeaking_self (sid : String) (b : Bool) (room : RoomMembers) :
    jsGet sid (setSpeaking sid b room) =
      (jsGet sid room).map (fun u => { u with isSpeaking := b }) := by
  unfold setSpeaking
  induction room with
  | nil => rfl
  | cons p m ih =>
    rw [List.map_cons]
    by_cases hp : p.1 = sid
    · simp [jsGet_cons, hp]
    · simp [jsGet_cons, hp, ih]

theorem jsGet_setSpeaking_ne {s sid : String} (h : s ≠ sid) (b : Bool)
    (room : RoomMembers) :
    jsGet s (setSpeaking sid b room) = jsGet s room := by
  unfold setSpeaking
  induction room with
  | nil => rfl
  | cons p m ih =>
    rw [List.map_cons]
    by_cases hp : p.1 = sid
    · have hps : ¬ p.1 = s := fun he => h (he.symm.trans hp)
      have hss : ¬ sid = s := fun he => h he.symm
      simp [jsGet_cons, hp, hps, hss, ih]
    · by_cases hps : p.1 = s <;> simp [jsGet_cons, hp, hps, h, ih]

theorem jsHas_setSpeaking (s sid : String) (b : Bool) (room : RoomMembers) :
    jsHas s (setSpeaking sid b room) = jsHas s room := by
  unfold setSpeaking
  induction room with
  | nil => rfl
  | cons p m ih =>
    rw [List.map_cons]
    by_cases hp : p.1 = sid <;> simp [jsHas_cons, hp, ih]

theorem voiceActivity_not_member {sid roomId : String} {st : Registry}
    (h : memberOf sid roomId st = false) (b : Bool) :
    voiceActivity sid roomId b st = (st, []) := by
  unfold voiceActivity
  unfold memberOf at h
  cases hg : jsGet roomId st with
  | none => rfl
  | some room =>
    rw [hg] at h
    simp only [Option.getD_some] at h
    simp [h]

theorem voiceActivity_member {sid roomId : String} {room : RoomMembers}
    {st : Registry} (hg : jsGet roomId st = some room)
    (hs : jsHas sid room = true) (b : Bool) :
    voiceActivity sid roomId b st =
      (jsSet roomId (setSpeaking sid b room) st,
       [⟨EmitTarget.room roomId, Event.userSpeaking roomId sid b⟩]) := by
  unfold voiceActivity
  rw [hg]
  simp [hs]

theorem memberOf_voiceActivity (s r sid roomId : String) (b : Bool)
    (st : Registry) :
    memberOf s r (voiceActivity sid roomId b st).1 = memberOf s r st := by
  cases hg : jsGet roomId st with
  | none =>
    unfold voiceActivity
    rw [hg]
  | some room =>
    by_cases hs : jsHas sid room = true
    · rw [voiceActivity_member hg hs b]
      unfold memberOf
      by_cases hr : r = roomId
      · subst hr
        rw [jsGet_set_self, hg]
        simp only [Option.getD_some]
        rw [jsHas_setSpeaking]
      · rw [jsGet_set_ne hr]
    · have hm : memberOf sid roomId st = false := by
        unfold memberOf
        rw [hg]
        simp only [Option.getD_some]
        simpa using hs
      rw [voiceActivity_not_member hm b]

theorem disconnect_snd (sid : String) (st : Registry) :
    (disconnect sid st).2 =
      (st.filter (fun p => jsHas sid p.2)).map
        (fun p => ⟨EmitTarget.room p.1,
          Event.presenceUpdate p.1 (jsValues (jsDel sid p.2))⟩) := by
  induction st with
  | nil => rfl
  | cons q rest ih =>
    obtain ⟨roomId, members⟩ := q
    rw [List.filter_cons]
    unfold disconnect
    by_cases h : jsHas sid members = true
    · simp only [h, if_true]
      by_cases he : (jsDel sid members).isEmpty = true <;> simp [he, ih]
    · simp [h, ih]

theorem disconnect_keys_sublist (sid : String) (st : Registry) :
    ((disconnect sid st).1.map Prod.fst).Sublist (st.map Prod.fst) := by
  induction st with
  | nil => simp [disconnect]
  | cons q rest ih =>
    obtain ⟨roomId, members⟩ := q
    unfold disconnect
    by_cases h : jsHas sid members = true
    · simp only [h, if_true]
      by_cases he : (jsDel sid members).isEmpty = true
      · rw [if_pos he]
        exact ih.trans (List.sublist_cons_self _ _)
      · rw [if_neg he]
        simpa using ih.cons₂ roomId
    · simp only [h]
      simpa using ih.cons₂ roomId

theorem disconnect_purged (sid : String) (st : Registry) :
    ∀ p ∈ (disconnect sid st).1, jsHas sid p.2 = false := by
  induction st with
  | nil =>
    intro p hp
    simp [disconnect] at hp
  | cons q rest ih =>
    obtain ⟨roomId, members⟩ := q
    intro p hp
    unfold disconnect at hp
    by_cases h : jsHas sid members = true
    · simp only [h, if_true] at hp
      by_cases he : (jsDel sid members).isEmpty = true
      · rw [if_pos he] at hp
        exact ih p hp
      · rw [if_neg he] at hp
        rcases List.mem_cons.mp hp with h1 | h1
        · subst h1
          have hd := jsHas_del sid sid members
          rw [if_pos rfl] at hd
          exact hd
        · exact ih p h1
    · simp only [h, Bool.false_eq_true, if_false] at hp
      rcases List.mem_cons.mp hp with h1 | h1
      · subst h1
        simpa using h
      · exact ih p h1

theorem disconnect_noop (sid : String) (st : Registry)
    (h : ∀ p ∈ st, jsHas sid p.2 = false) : disconnect sid st = (st, []) := by
  induction st with
  | nil => rfl
  | cons q rest ih =>
    obtain ⟨roomId, members⟩ := q
    unfold disconnect
    have hq : jsHas sid members = false :=
      h (roomId, members) (List.mem_cons_self _ _)
    rw [ih (fun p hp => h p (List.mem_cons_of_mem _ hp))]
    simp [hq]

theorem disconnect_idem (sid : String) (st : Registry) :
    disconnect sid ((disconnect sid st).1) = ((disconnect sid st).1, []) :=
  disconnect_noop sid _ (disconnect_purged sid st)

theorem jsGet_disconnect (sid r : String) (st : Registry)
    (hnd : (st.map Prod.fst).Nodup) :
    jsGet r (disconnect sid st).1 =
      match jsGet r st with
      | none => none
      | some members =>
        if jsHas sid members then
          (if (jsDel sid members).isEmpty then none
           else some (jsDel sid members))
        else some members := by
  induction st with
  | nil => rfl
  | cons q rest ih =>
    obtain ⟨roomId, members⟩ := q
    rw [List.map_cons, List.nodup_cons] at hnd
    obtain ⟨hnotin, hnd2⟩ := hnd
    have ihr := ih hnd2
    have htail : jsGet roomId (disconnect sid rest).1 = none :=
      jsGet_eq_none_of_not_mem_keys
        (fun hmem => hnotin ((disconnect_keys_sublist sid rest).subset hmem))
    unfold disconnect
    by_cases hr : roomId = r
    · subst hr
      rw [jsGet_cons, if_pos rfl]
      by_cases h : jsHas sid members = true
      · simp only [h, if_true]
        by_cases he : (jsDel sid members).isEmpty = true
        · rw [if_pos he]
          simpa [he] using htail
        · rw [if_neg he]
          simp [jsGet_cons, he]
      · simp [h, jsGet_cons]
    · rw [jsGet_cons, if_neg hr]
      by_cases h : jsHas sid members = true
      · simp only [h, if_true]
        by_cases he : (jsDel sid members).isEmpty = true
        · rw [if_pos he]
          exact ihr
        · rw [if_neg he]
          rw [jsGet_cons, if_neg hr]
          exact ihr
      · simp only [h, Bool.false_eq_true, if_false]
        rw [jsGet_cons, if_neg hr]
        exact ihr

theorem memberOf_disconnect (sid s r : String) (st : Registry)
    (hnd : (st.map Prod.fst).Nodup) :
    memberOf s r (disconnect sid st).1 =
      if s = sid then false else memberOf s r st := by
  unfold memberOf
  rw [jsGet_disconnect sid r st hnd]
  cases hg : jsGet r st with
  | none => simp [jsHas_nil]
  | some members =>
    by_cases hs : jsHas sid members = true
    · by_cases he : (jsDel sid members).isEmpty = true
      · simp only [hs, if_true, if_pos he]
        by_cases hss : s = sid
        · simp [hss, jsHas_nil]
        · have hms : jsHas s members = false := by
            have hd := jsHas_del s sid members
            rw [if_neg hss, List.isEmpty_iff.mp he, jsHas_nil] at hd
            exact hd.symm
          simp [hss, jsHas_nil, hms]
      · simp only [hs, if_true, if_neg he, Option.getD_some]
        rw [jsHas_del]
    · simp only [hs, Bool.false_eq_true, if_false, Option.getD_some]
      by_cases hss : s = sid
      · subst hss
        simp [hs]
      · simp [hss]

theorem roomWF_jsSet {room : RoomMembers} (h : RoomWF room) {k : String}
    {u : User} (hu : u.socketId = k) : RoomWF (jsSet k u room) := by
  obtain ⟨hnd, hinv⟩ := h
  constructor
  · rw [keys_set]
    by_cases hk : jsHas k room = true
    · rw [if_pos hk]; exact hnd
    · rw [if_neg hk]
      have hni : k ∉ room.map Prod.fst :=
        fun hmem => hk ((jsHas_eq_mem_keys k room).mpr hmem)
      simp [List.nodup_append, hnd, hni]
  · intro p hp
    rcases mem_jsSet hp with h1 | h1
    · subst h1
      exact hu
    · exact hinv p h1.1

theorem roomWF_jsDel {room : RoomMembers} (h : RoomWF room) (k : String) :
    RoomWF (jsDel k room) :=
  ⟨(keys_del_sublist k room).nodup h.1, fun p hp => h.2 p (mem_jsDel hp)⟩

theorem roomWF_setSpeaking {room : RoomMembers} (h : RoomWF room)
    (sid : String) (b : Bool) : RoomWF (setSpeaking sid b room) := by
  obtain ⟨hnd, hinv⟩ := h
  constructor
  · rw [setSpeaking_keys]; exact hnd
  · intro p hp
    unfold setSpeaking at hp
    rw [List.mem_map] at hp
    obtain ⟨q, hq, he⟩ := hp
    by_cases hqs : q.1 = sid
    · rw [if_pos hqs] at he
      subst he
      simpa using hinv q hq
    · rw [if_neg hqs] at he
      subst he
      exact hinv q hq

theorem regWF_joinCircle (sid roomId uid nm : String) {st : Registry}
    (h : RegWF st) : RegWF (joinCircle sid roomId uid nm st).1 := by
  obtain ⟨hnd, hinv⟩ := h
  have hroomWF : RoomWF ((jsGet roomId st).getD []) := by
    cases hg : jsGet roomId st with
    | none =>
      refine ⟨List.nodup_nil, ?_⟩
      intro p hp
      simp at hp
    | some room =>
      simpa using (hinv (roomId, room) (mem_of_jsGet hg)).1
  have hroom1 : RoomWF
      (jsSet sid ⟨sid, uid, nm, false⟩ ((jsGet roomId st).getD [])) :=
    roomWF_jsSet hroomWF rfl
  constructor
  · have h1 : jsHas roomId
        (if jsHas roomId st then st else jsSet roomId ([] : RoomMembers) st) =
        true := by
      by_cases hh : jsHas roomId st = true
      · rw [if_pos hh]; exact hh
      · rw [if_neg hh, jsHas_set]; simp
    simp only [joinCircle]
    rw [roomFix_get, keys_set, if_pos h1, roomFix_keys]
    by_cases hh : jsHas roomId st = true
    · rw [if_pos hh]; exact hnd
    · rw [if_neg hh]
      have hni : roomId ∉ st.map Prod.fst :=
        fun hmem => hh ((jsHas_eq_mem_keys roomId st).mpr hmem)
      simp [List.nodup_append, hnd, hni]
  · intro p hp
    simp only [joinCircle] at hp
    rw [roomFix_get] at hp
    rcases mem_jsSet hp with h1 | h1
    · subst h1
      exact ⟨hroom1, jsSet_ne_nil _ _ _⟩
    · obtain ⟨hmem, hne⟩ := h1
      by_cases hh : jsHas roomId st = true
      · rw [if_pos hh] at hmem
        exact hinv p hmem
      · rw [if_neg hh] at hmem
        rcases mem_jsSet hmem with h2 | h2
        · exact absurd (by rw [h2]) hne
        · exact hinv p h2.1

theorem regWF_voiceActivity (sid roomId : String) (b : Bool) {st : Registry}
    (h : RegWF st) : RegWF (voiceActivity sid roomId b st).1 := by
  cases hg : jsGet roomId st with
  | none =>
    unfold voiceActivity
    rw [hg]
    exact h
  | some room =>
    by_cases hs : jsHas sid room = true
    · rw [voiceActivity_member hg hs b]
      obtain ⟨hnd, hinv⟩ := h
      have hroom := hinv (roomId, room) (mem_of_jsGet hg)
      constructor
      · rw [keys_set]
        have hh : jsHas roomId st = true := by
          rw [jsHas_eq_isSome, hg]
          rfl
        rw [if_pos hh]
        exact hnd
      · intro p hp
        rcases mem_jsSet hp with h1 | h1
        · subst h1
          refine ⟨roomWF_setSpeaking hroom.1 sid b, ?_⟩
          intro he
          unfold setSpeaking at he
          rw [List.map_eq_nil_iff] at he
          exact hroom.2 he
        · exact hinv p h1.1
    · have hm : memberOf sid roomId st = false := by
        unfold memberOf
        rw [hg]
        simpa using hs
      rw [voiceActivity_not_member hm b]
      exact h

theorem disconnect_rooms_ok (sid : String) (st : Registry)
    (hinv : ∀ p ∈ st, RoomWF p.2 ∧ p.2 ≠ []) :
    ∀ p ∈ (disconnect sid st).1, RoomWF p.2 ∧ p.2 ≠ [] := by
  induction st with
  | nil =>
    intro p hp
    simp [disconnect] at hp
  | cons q rest ih =>
    obtain ⟨roomId, members⟩ := q
    intro p hp
    have hih := ih (fun p hp => hinv p (List.mem_cons_of_mem _ hp))
    unfold disconnect at hp
    by_cases h : jsHas sid members = true
    · simp only [h, if_true] at hp
      by_cases he : (jsDel sid members).isEmpty = true
      · rw [if_pos he] at hp
        exact hih p hp
      · rw [if_neg he] at hp
        rcases List.mem_cons.mp hp with h1 | h1
        · subst h1
          have hm := hinv (roomId, members) (List.mem_cons_self _ _)
          refine ⟨roomWF_jsDel hm.1 sid, ?_⟩
          show jsDel sid members ≠ []
          intro hemp
          exact he (by rw [hemp]; rfl)
        · exact hih p h1
    · simp only [h, Bool.false_eq_true, if_false] at hp
      rcases List.mem_cons.mp hp with h1 | h1
      · subst h1
        exact hinv (roomId, members) (List.mem_cons_self _ _)
      · exact hih p h1

theorem regWF_disconnect (sid : String) {st : Registry} (h : RegWF st) :
    RegWF (disconnect sid st).1 :=
  ⟨(disconnect_keys_sublist sid st).nodup h.1,
   disconnect_rooms_ok sid st h.2⟩

theorem regWF_step (op : Op) {st : Registry} (h : RegWF st) :
    RegWF (step st op).1 := by
  cases op with
  | join sid roomId uid nm => exact regWF_joinCircle sid roomId uid nm h
  | activity sid roomId b => exact regWF_voiceActivity sid roomId b h
  | disc sid => exact regWF_disconnect sid h

theorem regWF_runFrom (ops : List Op) {st : Registry} (h : RegWF st) :
    RegWF (runFrom st ops).1 := by
  induction ops generalizing st with
  | nil => exact h
  | cons op rest ih => exact ih (regWF_step op h)

theorem regWF_empty : RegWF ([] : Registry) := by
  refine ⟨List.nodup_nil, ?_⟩
  intro p hp
  simp at hp

theorem regWF_run (ops : List Op) : RegWF (run ops).1 :=
  regWF_runFrom ops regWF_empty

theorem runFrom_append (st : Registry) (l1 l2 : List Op) :
    runFrom st (l1 ++ l2) =
      ((runFrom (runFrom st l1).1 l2).1,
       (runFrom st l1).2 ++ (runFrom (runFrom st l1).1 l2).2) := by
  induction l1 generalizing st with
  | nil => simp [runFrom]
  | cons op rest ih =>
    simp only [List.cons_append, runFrom, List.append_eq]
    rw [ih]
    simp [List.append_assoc]

theorem run_snoc (ops : List Op) (op : Op) :
    run (ops ++ [op]) =
      ((step (run ops).1 op).1, (run ops).2 ++ (step (run ops).1 op).2) := by
  unfold run
  rw [runFrom_append]
  simp [runFrom]

theorem joinedNotGone_snoc (roomId sid : String) (ops : List Op) (op : Op) :
    joinedNotGone roomId sid (ops ++ [op]) =
      match op with
      | Op.join s r _ _ =>
        if s = sid ∧ r = roomId then true else joinedNotGone roomId sid ops
      | Op.disc s => if s = sid then false else joinedNotGone roomId sid ops
      | Op.activity _ _ _ => joinedNotGone roomId sid ops := by
  unfold joinedNotGone
  rw [List.foldl_append]
  cases op <;> rfl

theorem memberOf_run (ops : List Op) (roomId sid : String) :
    memberOf sid roomId (run ops).1 = joinedNotGone roomId sid ops := by
  induction ops using List.reverseRecOn with
  | nil => rfl
  | append_singleton ops op ih =>
    rw [run_snoc, joinedNotGone_snoc]
    cases op with
    | join s r uid nm =>
      simp only [step]
      rw [memberOf_joinCircle]
      by_cases hr : roomId = r
      · subst hr
        rw [if_pos rfl]
        by_cases hs : sid = s
        · subst hs
          simp
        · have hs2 : ¬ s = sid := fun he => hs he.symm
          simp [hs, hs2, ih]
      · have hr2 : ¬ r = roomId := fun he => hr he.symm
        rw [if_neg hr]
        simp [hr2, ih]
    | activity s r b =>
      simp only [step]
      rw [memberOf_voiceActivity]
      exact ih
    | disc s =>
      simp only [step]
      rw [memberOf_disconnect s sid roomId _ (regWF_run ops).1]
      by_cases hs : sid = s
      · subst hs
        simp
      · have hs2 : ¬ s = sid := fun he => hs he.symm
        simp [hs, hs2, ih]

theorem getLast_append_or {β : Type} (l1 l2 : List β) :
    (l1 ++ l2).getLast? =
      match l2.getLast? with
      | some x => some x
      | none => l1.getLast? := by
  cases l2 with
  | nil => simp
  | cons x xs =>
    rw [List.getLast?_append_cons]
    cases h : (x :: xs).getLast? with
    | none => simp [List.getLast?] at h
    | some y => rfl

theorem lastPresence_append (roomId : String) (es1 es2 : List Emission) :
    lastPresence roomId (es1 ++ es2) =
      match lastPresence roomId es2 with
      | some ms => some ms
      | none => lastPresence roomId es1 := by
  unfold lastPresence
  rw [List.filterMap_append, getLast_append_or]
  cases (es2.filterMap (presenceOf roomId)).getLast? <;> rfl

theorem lastPresence_joinCircle (r sid roomId uid nm : String) (st : Registry) :
    lastPresence r (joinCircle sid roomId uid nm st).2 =
      if roomId = r then
        some (jsValues
          (jsSet sid ⟨sid, uid, nm, false⟩ ((jsGet roomId st).getD [])))
      else none := by
  rw [joinCircle_snd]
  unfold lastPresence
  by_cases hr : roomId = r <;>
    simp [presenceOf, List.filterMap_cons, hr]

theorem lastPresence_voiceActivity (r sid roomId : String) (b : Bool)
    (st : Registry) :
    lastPresence r (voiceActivity sid roomId b st).2 = none := by
  cases hg : jsGet roomId st with
  | none =>
    unfold voiceActivity
    rw [hg]
    rfl
  | some room =>
    by_cases hs : jsHas sid room = true
    · rw [voiceActivity_member hg hs b]
      simp [lastPresence, presenceOf, List.filterMap_cons]
    · have hm : memberOf sid roomId st = false := by
        unfold memberOf
        rw [hg]
        simpa using hs
      rw [voiceActivity_not_member hm b]
      rfl

theorem presence_filterMap_none (sid r : String) (l : Registry)
    (h : ∀ p ∈ l, p.1 ≠ r) :
    ((l.filter (fun p => jsHas sid p.2)).map
      (fun p => (⟨EmitTarget.room p.1,
        Event.presenceUpdate p.1 (jsValues (jsDel sid p.2))⟩ : Emission))).filterMap
      (presenceOf r) = [] := by
  induction l with
  | nil => rfl
  | cons q rest ih =>
    rw [List.filter_cons]
    have hq := h q (List.mem_cons_self _ _)
    have hrest := fun p hp => h p (List.mem_cons_of_mem _ hp)
    by_cases hqs : jsHas sid q.2 = true
    · simp only [hqs, if_true, List.map_cons, List.filterMap_cons]
      have hnone : presenceOf r
          (⟨EmitTarget.room q.1,
            Event.presenceUpdate q.1 (jsValues (jsDel sid q.2))⟩ : Emission) =
          none := by
        simp [presenceOf, hq]
      rw [hnone]
      exact ih hrest
    · simp only [hqs, Bool.false_eq_true, if_false]
      exact ih hrest

theorem lastPresence_disconnect (sid r : String) (st : Registry)
    (hnd : (st.map Prod.fst).Nodup) :
    lastPresence r (disconnect sid st).2 =
      match jsGet r st with
      | none => none
      | some members =>
        if jsHas sid members then some (jsValues (jsDel sid members))
        else none := by
  rw [disconnect_snd]
  unfold lastPresence
  induction st with
  | nil => rfl
  | cons q rest ih =>
    obtain ⟨roomId, members⟩ := q
    rw [List.map_cons, List.nodup_cons] at hnd
    obtain ⟨hnotin, hnd2⟩ := hnd
    have hrestne : ∀ p ∈ rest, p.1 ≠ r ∨ True := fun p _ => Or.inr trivial
    rw [List.filter_cons]
    by_cases hr : roomId = r
    · subst hr
      have hrest0 : ∀ p ∈ rest, p.1 ≠ roomId := by
        intro p hp he
        exact hnotin (List.mem_map.mpr ⟨p, hp, he⟩)
      by_cases hm : jsHas sid members = true
      · simp only [hm, if_true, List.map_cons, List.filterMap_cons]
        have hhead : presenceOf roomId
            (⟨EmitTarget.room roomId,
              Event.presenceUpdate roomId
                (jsValues (jsDel sid members))⟩ : Emission) =
            some (jsValues (jsDel sid members)) := by
          simp [presenceOf]
        rw [hhead, presence_filterMap_none sid roomId rest hrest0]
        simp [jsGet_cons, hm]
      · simp only [hm, Bool.false_eq_true, if_false]
        rw [presence_filterMap_none sid roomId rest hrest0]
        simp [jsGet_cons, hm]
    · by_cases hm : jsHas sid members = true
      · simp only [hm, if_true, List.map_cons, List.filterMap_cons]
        have hhead : presenceOf r
            (⟨EmitTarget.room roomId,
              Event.presenceUpdate roomId
                (jsValues (jsDel sid members))⟩ : Emission) = none := by
          simp [presenceOf, hr]
        rw [hhead, ih hnd2]
        rw [jsGet_cons, if_neg hr]
      · simp only [hm, Bool.false_eq_true, if_false]
        rw [ih hnd2]
        rw [jsGet_cons, if_neg hr]

theorem hasSid_jsValues (sid : String) (room : RoomMembers)
    (hwf : ∀ p ∈ room, p.2.socketId = p.1) :
    hasSid sid (jsValues room) = jsHas sid room := by
  unfold hasSid jsValues
  induction room with
  | nil => rfl
  | cons p m ih =>
    rw [List.map_cons, List.any_cons, jsHas_cons]
    rw [hwf p (List.mem_cons_self _ _)]
    rw [ih (fun q hq => hwf q (List.mem_cons_of_mem _ hq))]

theorem socketIds_jsValues (room : RoomMembers)
    (hwf : ∀ p ∈ room, p.2.socketId = p.1) :
    (jsValues room).map User.socketId = room.map Prod.fst := by
  unfold jsValues
  rw [List.map_map]
  exact List.map_congr_left (fun p hp => hwf p hp)

theorem roomWF_of_regWF {st : Registry} (h : RegWF st) {r : String}
    {room : RoomMembers} (hg : jsGet r st = some room) :
    RoomWF room ∧ room ≠ [] := by
  simpa using h.2 (r, room) (mem_of_jsGet hg)

theorem lastPresence_append_some {roomId : String} {es1 es2 : List Emission}
    {ms : List User} (h : lastPresence roomId es2 = some ms) :
    lastPresence roomId (es1 ++ es2) = some ms := by
  rw [lastPresence_append, h]

theorem lastPresence_append_none {roomId : String} {es1 es2 : List Emission}
    (h : lastPresence roomId es2 = none) :
    lastPresence roomId (es1 ++ es2) = lastPresence roomId es1 := by
  rw [lastPresence_append, h]

theorem snapshot_run (ops : List Op) (roomId : String) :
    (∀ ms, lastPresence roomId (run ops).2 = some ms →
        ((ms.map User.socketId).Nodup ∧
         ∀ sid, hasSid sid ms = memberOf sid roomId (run ops).1)) ∧
    (lastPresence roomId (run ops).2 = none →
        ∀ sid, memberOf sid roomId (run ops).1 = false) := by
  induction ops using List.reverseRecOn with
  | nil =>
    constructor
    · intro ms hms
      simp [run, runFrom, lastPresence] at hms
    · intro _ sid
      rfl
  | append_singleton ops op ih =>
    cases op with
    | join s r uid nm =>
      simp only [run_snoc, step]
      by_cases hr : r = roomId
      · subst hr
        have hpost := regWF_joinCircle s r uid nm (regWF_run ops)
        have hg1 := jsGet_joinCircle_self s r uid nm (run ops).1
        have hroomWF := (roomWF_of_regWF hpost hg1).1
        have h2 : lastPresence r (joinCircle s r uid nm (run ops).1).2 =
            some (jsValues (jsSet s ⟨s, uid, nm, false⟩
              ((jsGet r (run ops).1).getD []))) := by
          rw [lastPresence_joinCircle, if_pos rfl]
        rw [lastPresence_append_some h2]
        constructor
        · intro ms hms
          have hmseq := Option.some.inj hms
          subst hmseq
          constructor
          · rw [socketIds_jsValues _ hroomWF.2]
            exact hroomWF.1
          · intro sid
            rw [hasSid_jsValues sid _ hroomWF.2]
            unfold memberOf
            rw [hg1]
            rfl
        · intro hnone
          exact absurd hnone (by simp)
      · have h2 : lastPresence roomId (joinCircle s r uid nm (run ops).1).2 =
            none := by
          rw [lastPresence_joinCircle, if_neg hr]
        rw [lastPresence_append_none h2]
        have hpreq : ∀ sid,
            memberOf sid roomId (joinCircle s r uid nm (run ops).1).1 =
              memberOf sid roomId (run ops).1 := by
          intro sid
          rw [memberOf_joinCircle]
          rw [if_neg (fun he => hr he.symm)]
        constructor
        · intro ms hms
          obtain ⟨hnodup, hmemold⟩ := ih.1 ms hms
          exact ⟨hnodup, fun sid => by rw [hpreq sid]; exact hmemold sid⟩
        · intro hnone sid
          rw [hpreq sid]
          exact ih.2 hnone sid
    | activity s r b =>
      simp only [run_snoc, step]
      have h2 : lastPresence roomId (voiceActivity s r b (run ops).1).2 =
          none :=
        lastPresence_voiceActivity roomId s r b (run ops).1
      rw [lastPresence_append_none h2]
      have hpreq : ∀ sid,
          memberOf sid roomId (voiceActivity s r b (run ops).1).1 =
            memberOf sid roomId (run ops).1 :=
        fun sid => memberOf_voiceActivity sid roomId s r b (run ops).1
      constructor
      · intro ms hms
        obtain ⟨hnodup, hmemold⟩ := ih.1 ms hms
        exact ⟨hnodup, fun sid => by rw [hpreq sid]; exact hmemold sid⟩
      · intro hnone sid
        rw [hpreq sid]
        exact ih.2 hnone sid
    | disc s =>
      simp only [run_snoc, step]
      have hnd := (regWF_run ops).1
      have hmem : ∀ sid, memberOf sid roomId (disconnect s (run ops).1).1 =
          if sid = s then false else memberOf sid roomId (run ops).1 :=
        fun sid => memberOf_disconnect s sid roomId _ hnd
      cases hg : jsGet roomId (run ops).1 with
      | none =>
        have hpre : ∀ sid, memberOf sid roomId (run ops).1 = false := by
          intro sid
          unfold memberOf
          rw [hg]
          rfl
        have hpost : ∀ sid,
            memberOf sid roomId (disconnect s (run ops).1).1 = false := by
          intro sid
          rw [hmem sid]
          by_cases hss : sid = s
          · simp [hss]
          · simp [hss, hpre sid]
        have h2 : lastPresence roomId (disconnect s (run ops).1).2 = none := by
          rw [lastPresence_disconnect s roomId _ hnd, hg]
        rw [lastPresence_append_none h2]
        constructor
        · intro ms hms
          obtain ⟨hnodup, hmemold⟩ := ih.1 ms hms
          refine ⟨hnodup, ?_⟩
          intro sid
          rw [hpost sid, hmemold sid, hpre sid]
        · intro _ sid
          exact hpost sid
      | some members =>
        by_cases hsm : jsHas s members = true
        · have hWF := roomWF_of_regWF (regWF_run ops) hg
          have hroom1 : RoomWF (jsDel s members) := roomWF_jsDel hWF.1 s
          have h2 : lastPresence roomId (disconnect s (run ops).1).2 =
              some (jsValues (jsDel s members)) := by
            rw [lastPresence_disconnect s roomId _ hnd, hg]
            simp [hsm]
          rw [lastPresence_append_some h2]
          constructor
          · intro ms hms
            have hmseq := Option.some.inj hms
            subst hmseq
            constructor
            · rw [socketIds_jsValues _ hroom1.2]
              exact hroom1.1
            · intro sid
              rw [hasSid_jsValues sid _ hroom1.2]
              rw [hmem sid]
              rw [jsHas_del]
              unfold memberOf
              rw [hg]
              rfl
          · intro hnone
            exact absurd hnone (by simp)
        · have hpreq : ∀ sid,
              memberOf sid roomId (disconnect s (run ops).1).1 =
                memberOf sid roomId (run ops).1 := by
            intro sid
            rw [hmem sid]
            by_cases hss : sid = s
            · subst hss
              unfold memberOf
              rw [hg]
              simp [hsm]
            · simp [hss]
          have h2 : lastPresence roomId (disconnect s (run ops).1).2 =
              none := by
            rw [lastPresence_disconnect s roomId _ hnd, hg]
            simp [hsm]
          rw [lastPresence_append_none h2]
          constructor
          · intro ms hms
            obtain ⟨hnodup, hmemold⟩ := ih.1 ms hms
            exact ⟨hnodup, fun sid => by rw [hpreq sid]; exact hmemold sid⟩
          · intro hnone sid
            rw [hpreq sid]
            exact ih.2 hnone sid

theorem joinCircle_fresh {roomId : String} {st : Registry}
    (h : jsHas roomId st = false) (sid uid nm : String) :
    jsGet roomId (joinCircle sid roomId uid nm st).1 =
      some [(sid, ⟨sid, uid, nm, false⟩)] := by
  rw [jsGet_joinCircle_self]
  have hg : jsGet roomId st = none := by
    rw [jsHas_eq_isSome] at h
    cases hgg : jsGet roomId st with
    | none => rfl
    | some w => rw [hgg] at h; simp at h
  rw [hg]
  rfl

/-- Command sequence used to witness the presence-snapshot property: a double
join by the same connection, a second member, then a disconnect. -/
def demoOps : List Op :=
  [Op.join "A" "r1" "alice" "Alice", Op.join "A" "r1" "alice" "Alice",
   Op.join "B" "r1" "bob" "Bob", Op.disc "B"]

/-- Claim C1: for every finite sequence of join and disconnect commands (and
in fact of activity commands too), the member list of the most recent
presence snapshot emitted for a room lists each connection at most once
(membership is keyed by connection identifier, a repeated join overwrites)
and its socket-id set is exactly the set of connections that have joined the
room and not since disconnected. -/
theorem presence_snapshot_exact (ops : List Op) (roomId : String)
    (ms : List User) (h : lastPresence roomId (run ops).2 = some ms) :
    (ms.map User.socketId).Nodup ∧
    ∀ sid, hasSid sid ms = joinedNotGone roomId sid ops := by
  obtain ⟨hnodup, hmem⟩ := (snapshot_run ops roomId).1 ms h
  exact ⟨hnodup, fun sid => (hmem sid).trans (memberOf_run ops roomId sid)⟩

/-- Witness for C1 at a concrete command sequence. -/
theorem presence_snapshot_exact_witness :
    lastPresence "r1" (run demoOps).2 =
      some [⟨"A", "alice", "Alice", false⟩] ∧
    (([⟨"A", "alice", "Alice", false⟩] : List User).map User.socketId).Nodup ∧
    ∀ sid, hasSid sid [⟨"A", "alice", "Alice", false⟩] =
      joinedNotGone "r1" sid demoOps :=
  ⟨by decide, presence_snapshot_exact demoOps "r1" _ (by decide)⟩

/-- Commands leaving the registry with a deleted room: one join, one purge. -/
def wOps5 : List Op := [Op.join "A" "r1" "alice" "Al", Op.disc "A"]

/-- Claim C5: in every reachable registry state every room record is
nonempty (a room is deleted in the same step its member set empties), and a
join to a room identifier with no record starts from an empty member set
(the new room holds exactly the joining member). -/
theorem rooms_nonempty_invariant (ops : List Op) :
    (∀ p ∈ (run ops).1, p.2 ≠ []) ∧
    (∀ roomId sid uid nm, jsHas roomId (run ops).1 = false →
      jsGet roomId (joinCircle sid roomId uid nm (run ops).1).1 =
        some [(sid, ⟨sid, uid, nm, false⟩)]) := by
  constructor
  · intro p hp
    exact ((regWF_run ops).2 p hp).2
  · intro roomId sid uid nm h
    exact joinCircle_fresh h sid uid nm

/-- Witness for C5: after the last member of "r1" disconnects the record is
gone, and a fresh join starts from the singleton member set. -/
theorem rooms_nonempty_invariant_witness :
    jsHas "r1" (run wOps5).1 = false ∧
    jsGet "r1" (joinCircle "B" "r1" "bob" "Bo" (run wOps5).1).1 =
      some [("B", ⟨"B", "bob", "Bo", false⟩)] :=
  ⟨by decide, (rooms_nonempty_invariant wOps5).2 "r1" "B" "bob" "Bo" (by decide)⟩

/-- Claim C6: purging a connection from a reachable registry emits exactly
one presence snapshot per room containing that connection (the room keys are
distinct, so that is exactly N broadcasts for a member of N rooms and none
to other rooms), and a second purge of the same connection leaves the
registry unchanged and emits nothing. -/
theorem purge_broadcast_count (ops : List Op) (sid : String) :
    ((run ops).1.map Prod.fst).Nodup ∧
    (disconnect sid (run ops).1).2 =
      ((run ops).1.filter (fun p => jsHas sid p.2)).map
        (fun p => ⟨EmitTarget.room p.1,
          Event.presenceUpdate p.1 (jsValues (jsDel sid p.2))⟩) ∧
    (disconnect sid (run ops).1).2.length =
      ((run ops).1.filter (fun p => jsHas sid p.2)).length ∧
    disconnect sid ((disconnect sid (run ops).1).1) =
      ((disconnect sid (run ops).1).1, []) := by
  refine ⟨(regWF_run ops).1, disconnect_snd sid _, ?_, disconnect_idem sid _⟩
  rw [disconnect_snd]
  rw [List.length_map]

/-- Claim C9: a voice_activity command from a connection that is not a member
of the named room leaves the registry untouched and emits nothing; from a
member it only replaces that member record by the same record with the new
speaking flag, leaving every other room, member and field unchanged. -/
theorem set_activity_frame (st : Registry) (sid roomId : String) (b : Bool) :
    (memberOf sid roomId st = false →
      voiceActivity sid roomId b st = (st, [])) ∧
    (∀ room, jsGet roomId st = some room → jsHas sid room = true →
      (voiceActivity sid roomId b st).1 =
        jsSet roomId (setSpeaking sid b room) st ∧
      (∀ r, r ≠ roomId →
        jsGet r (voiceActivity sid roomId b st).1 = jsGet r st) ∧
      (∀ s, s ≠ sid → jsGet s (setSpeaking sid b room) = jsGet s room) ∧
      jsGet sid (setSpeaking sid b room) =
        (jsGet sid room).map (fun u => { u with isSpeaking := b })) := by
  constructor
  · intro h
    exact voiceActivity_not_member h b
  · intro room hg hs
    refine ⟨?_, ?_, ?_, ?_⟩
    · rw [voiceActivity_member hg hs b]
    · intro r hr
      rw [voiceActivity_member hg hs b]
      exact jsGet_set_ne hr _ _
    · intro s hsne
      exact jsGet_setSpeaking_ne hsne b room
    · exact jsGet_setSpeaking_self sid b room

/-- One-room registry used to witness the voice_activity claims. -/
def wReg : Registry := [("r1", [("A", ⟨"A", "alice", "Al", false⟩)])]

/-- Witness for C9: a non-member command is a no-op, a member command
rewrites exactly the member record. -/
theorem set_activity_frame_witness :
    voiceActivity "B" "r1" true wReg = (wReg, []) ∧
    (voiceActivity "A" "r1" true wReg).1 =
      jsSet "r1" (setSpeaking "A" true [("A", ⟨"A", "alice", "Al", false⟩)])
        wReg :=
  ⟨(set_activity_frame wReg "B" "r1" true).1 (by decide),
   ((set_activity_frame wReg "A" "r1" true).2
      [("A", ⟨"A", "alice", "Al", false⟩)] (by decide) (by decide)).1⟩

/-- Claim C10: for a member of the room, the activity delta is broadcast to
the room unconditionally, with no change detection against the stored flag. -/
theorem activity_broadcast_unconditional (st : Registry) (sid roomId : String)
    (b : Bool) (h : memberOf sid roomId st = true) :
    (voiceActivity sid roomId b st).2 =
      [⟨EmitTarget.room roomId, Event.userSpeaking roomId sid b⟩] := by
  unfold memberOf at h
  cases hg : jsGet roomId st with
  | none =>
    rw [hg] at h
    simp [jsHas_nil] at h
  | some room =>
    rw [hg] at h
    simp only [Option.getD_some] at h
    rw [voiceActivity_member hg h b]

/-- Registry whose member already has the speaking flag set. -/
def wRegSpeaking : Registry := [("r1", [("A", ⟨"A", "alice", "Al", true⟩)])]

/-- Witness for C10 at a member whose stored flag already equals the
supplied flag: the delta event is still emitted. -/
theorem activity_broadcast_unconditional_witness :
    memberOf "A" "r1" wRegSpeaking = true ∧
    (voiceActivity "A" "r1" true wRegSpeaking).2 =
      [⟨EmitTarget.room "r1", Event.userSpeaking "r1" "A" true⟩] :=
  ⟨by decide,
   activity_broadcast_unconditional wRegSpeaking "A" "r1" true (by decide)⟩

/-- Claim C4: the send_whisper outcome visible to clients (constructed
message and emissions) is identical whatever the persistence gate state and
the insert outcome; even with the store disconnected the delivery emission
is produced and no error event is emitted. -/
theorem delivery_independent_of_persistence (now : Nat) (md : MsgData)
    (db1 ins1 db2 ins2 : Bool) :
    (sendWhisper now db1 ins1 md).1 = (sendWhisper now db2 ins2 md).1 ∧
    (sendWhisper now db1 ins1 md).2.1 = (sendWhisper now db2 ins2 md).2.1 ∧
    (sendWhisper now false false md).2.1 =
      [⟨EmitTarget.all,
        Event.whisperInbox ("whisper_inbox_" ++ jsStr md.receiverId)
          (buildMessage now md)⟩] ∧
    ((sendWhisper now db1 ins1 md).2.1.any
      (fun em => em.event.isInvalid)) = false :=
  ⟨rfl, rfl, rfl, rfl⟩

/-- Claim C8: the relay builds the message with the server clock value as
its timestamp (a client supplied timestamp is ignored), the read flag false,
the kind defaulting to "text" when none is supplied, and the ciphertext
passed through unchanged. -/
theorem message_construction (now : Nat) (db ins : Bool) (md : MsgData) :
    (sendWhisper now db ins md).1.timestamp = now ∧
    (∀ t, sendWhisper now db ins { md with timestamp := some t } =
      sendWhisper now db ins md) ∧
    (sendWhisper now db ins md).1.isRead = false ∧
    (md.type = none → (sendWhisper now db ins md).1.type = "text") ∧
    (∀ c, md.cipherText = some c →
      (sendWhisper now db ins md).1.cipherText = c) := by
  refine ⟨rfl, fun t => rfl, rfl, ?_, ?_⟩
  · intro h
    show jsOr md.type "text" = "text"
    rw [h]
    rfl
  · intro c h
    show jsOr md.cipherText "" = c
    rw [h]
    show (if c = "" then "" else c) = c
    by_cases hc : c = ""
    · rw [if_pos hc, hc]
    · rw [if_neg hc]

/-- Payload with a client supplied timestamp and no kind. -/
def wMd : MsgData :=
  { senderId := some "alice", receiverId := some "bob",
    cipherText := some "ct", timestamp := some 123, type := none,
    sharedCircleId := none }

/-- Witness for C8 at a concrete payload. -/
theorem message_construction_witness :
    wMd.type = none ∧ wMd.cipherText = some "ct" ∧
    (sendWhisper 77 true true wMd).1.type = "text" ∧
    (sendWhisper 77 true true wMd).1.cipherText = "ct" ∧
    (sendWhisper 77 true true wMd).1.timestamp = 77 :=
  ⟨rfl, rfl, (message_construction 77 true true wMd).2.2.2.1 rfl,
   (message_construction 77 true true wMd).2.2.2.2 "ct" rfl,
   (message_construction 77 true true wMd).1⟩

/-- Connections for the delivery-audience counterexample: the sender and an
unrelated third connection; the receiver "bob" is offline. -/
def cxConns : List Conn := [⟨"s1", "alice"⟩, ⟨"s3", "xavier"⟩]

/-- Payload of a whisper from alice to bob. -/
def cxMd : MsgData :=
  { senderId := some "alice", receiverId := some "bob",
    cipherText := some "ct", timestamp := none, type := none,
    sharedCircleId := none }

/-- Counterexample to C2 as stated: the delivery emission is a global
broadcast, so the unrelated connection s3 (user xavier, neither the
receiver bob nor the sender socket s1) observes it. -/
theorem whisper_not_private_counterexample :
    (sendWhisper 1000 true true cxMd).2.1 =
      [⟨EmitTarget.all,
        Event.whisperInbox "whisper_inbox_bob" (buildMessage 1000 cxMd)⟩] ∧
    observers cxConns (fun _ _ => false)
      ⟨EmitTarget.all,
        Event.whisperInbox "whisper_inbox_bob" (buildMessage 1000 cxMd)⟩ =
      cxConns ∧
    (⟨"s3", "xavier"⟩ : Conn) ∈ cxConns ∧
    ("xavier" : String) ≠ "bob" ∧ ("s3" : String) ≠ "s1" := by
  refine ⟨rfl, rfl, by decide, by decide, by decide⟩

/-- Claim C2 amended: the relay emits the message exactly once, globally to
every connected socket, under the event name whisper_inbox_ followed by the
receiver identifier; every connected socket observes the emission whether or
not it belongs to the receiver or the sender, and the same holds when the
receiver has no live connection. -/
theorem whisper_broadcast_global (conns : List Conn)
    (jt : Conn → String → Bool) (now : Nat) (db ins : Bool) (md : MsgData) :
    (sendWhisper now db ins md).2.1 =
      [⟨EmitTarget.all,
        Event.whisperInbox ("whisper_inbox_" ++ jsStr md.receiverId)
          (buildMessage now md)⟩] ∧
    ∀ em ∈ (sendWhisper now db ins md).2.1, observers conns jt em = conns := by
  refine ⟨rfl, ?_⟩
  intro em hem
  simp only [sendWhisper, List.mem_singleton] at hem
  subst hem
  rfl

/-- Witness for C2 amended at the concrete connection list. -/
theorem whisper_broadcast_global_witness :
    observers cxConns (fun _ _ => false)
      ⟨EmitTarget.all,
        Event.whisperInbox "whisper_inbox_bob" (buildMessage 5 cxMd)⟩ =
      cxConns :=
  (whisper_broadcast_global cxConns (fun _ _ => false) 5 true true cxMd).2
    ⟨EmitTarget.all,
      Event.whisperInbox "whisper_inbox_bob" (buildMessage 5 cxMd)⟩
    (by decide)

/-- Payload with both sender and receiver identifiers missing. -/
def cx3Md : MsgData :=
  { senderId := none, receiverId := none, cipherText := some "ct",
    timestamp := none, type := none, sharedCircleId := none }

/-- Counterexample to C3 as stated: with both identifiers missing the relay
raises no InvalidMessage condition, still constructs the message (with empty
identifier fields) and still broadcasts it, on the channel name obtained by
interpolating undefined. -/
theorem whisper_missing_ids_counterexample :
    (sendWhisper 5 true true cx3Md).2.1 =
      [⟨EmitTarget.all,
        Event.whisperInbox "whisper_inbox_undefined"
          (buildMessage 5 cx3Md)⟩] ∧
    ((sendWhisper 5 true true cx3Md).2.1.any
      (fun em => em.event.isInvalid)) = false ∧
    (buildMessage 5 cx3Md).senderId = "" ∧
    (buildMessage 5 cx3Md).receiverId = "" :=
  ⟨rfl, rfl, rfl, rfl⟩

/-- Claim C3 amended: the relay performs no validation at all: it never
raises an InvalidMessage condition, always emits exactly one delivery event,
and a missing sender or receiver identifier is replaced by the empty string
in the constructed message. -/
theorem whisper_no_validation (now : Nat) (db ins : Bool) (md : MsgData) :
    ((sendWhisper now db ins md).2.1.any
      (fun em => em.event.isInvalid)) = false ∧
    (sendWhisper now db ins md).2.1.length = 1 ∧
    (md.senderId = none → (sendWhisper now db ins md).1.senderId = "") ∧
    (md.receiverId = none → (sendWhisper now db ins md).1.receiverId = "") := by
  refine ⟨rfl, rfl, ?_, ?_⟩
  · intro h
    show jsOr md.senderId "" = ""
    rw [h]
    rfl
  · intro h
    show jsOr md.receiverId "" = ""
    rw [h]
    rfl

/-- Witness for C3 amended at the concrete payload with missing ids. -/
theorem whisper_no_validation_witness :
    cx3Md.senderId = none ∧ cx3Md.receiverId = none ∧
    (sendWhisper 9 false false cx3Md).1.senderId = "" ∧
    (sendWhisper 9 false false cx3Md).1.receiverId = "" :=
  ⟨rfl, rfl, (whisper_no_validation 9 false false cx3Md).2.2.1 rfl,
   (whisper_no_validation 9 false false cx3Md).2.2.2 rfl⟩

/-- Counterexample to C7 as stated: a join with empty room and user
identifiers is not a no-op: starting from the empty registry it creates the
room record keyed by the empty string, stores the member, and broadcasts a
presence snapshot. -/
theorem join_empty_ids_counterexample :
    (joinCircle "s1" "" "" "" ([] : Registry)).1 =
      [("", [("s1", ⟨"s1", "", "", false⟩)])] ∧
    (joinCircle "s1" "" "" "" ([] : Registry)).2 =
      [⟨EmitTarget.room "",
        Event.presenceUpdate "" [⟨"s1", "", "", false⟩]⟩] := by
  constructor <;> rfl

/-- Claim C7 amended: a join command with malformed (for example empty)
identifiers raises no error, but it is not a no-op: the member record is
stored under the given identifiers exactly as for well-formed input, and
exactly one presence snapshot is broadcast with no error event. -/
theorem join_malformed_accepted (sid roomId uid nm : String) (st : Registry) :
    memberOf sid roomId (joinCircle sid roomId uid nm st).1 = true ∧
    jsGet sid ((jsGet roomId (joinCircle sid roomId uid nm st).1).getD []) =
      some ⟨sid, uid, nm, false⟩ ∧
    (joinCircle sid roomId uid nm st).2.length = 1 ∧
    ((joinCircle sid roomId uid nm st).2.any
      (fun em => em.event.isInvalid)) = false := by
  refine ⟨?_, ?_, ?_, ?_⟩
  · rw [memberOf_joinCircle]
    rw [if_pos rfl]
    simp
  · rw [jsGet_joinCircle_self]
    simp only [Option.getD_some]
    exact jsGet_set_self _ _ _
  · rw [joinCircle_snd]
    rfl
  · rw [joinCircle_snd]
    rfl

end Sanctuary
